import Mathlib

/-!
Shallow embedding of `src/remove.ts` from `iac-factory/tty-testing`.

The source exports one operation, `Remove(target)`, built from four inner
helpers:

* `valid` (PathProbe)  — `FS.realpath` wrapped so every failure resolves to
  `false`; success resolves to `true`.
* `descriptors` (TreeReader) — `FS.readdir` with `withFileTypes`; on error the
  exception is thrown (modelled as error propagation to the awaiting caller);
  on success each `Dirent` is remapped to a `Descriptor` whose `path` is
  `Path.join(Path.resolve(location, name))` and whose `properties` are the
  four mutually exclusive type flags.
* `clean` (DeletionWalker) — recursive: directories are re-listed and every
  child is cleaned sequentially (`for await`); non-directories are leaves:
  re-probe existence, and only if present call `FS.unlink`; the unlink
  callback retries with `FS.rm(path, { force: true })` whenever
  `exception.code = "EPERM"` — an assignment, hence always truthy — and the
  `console.warn` branch sits under `else (exception !== null)`, which is
  unreachable because `exception` is `null` in the else branch.  When the
  existence probe fails, `(existence) && FS.unlink(...)` short-circuits and
  the wrapping promise's `resolve` is never invoked: the await never settles.
* `finalize` (Finalizer) — `FS.rm(target, { force: true, recursive: true })`,
  throwing on any error.

Filesystem paths are modelled as lists of name segments; the filesystem state
is the list of currently existing paths.  Static per-path error behaviour
(listing failures, unlink error codes, forced-removal failures, purge
failures) lives in an `Env` record.  Recursion is fuelled; running out of
fuel is a distinct outcome so that theorems about `ok`/`err`/`hang` outcomes
are fuel-robust.  Every filesystem call is recorded in an event trace.
-/

namespace FsRemove

/-- One of the four mutually exclusive classifications `FS.Dirent` reports
(`isFile`, `isDirectory`, `isSocket`, `isSymbolicLink`). -/
inductive Kind where
  | file
  | directory
  | socket
  | symbolic
deriving DecidableEq

/-- The `properties` record of a `Descriptor` in the source: four boolean
type flags. -/
structure Properties where
  file : Bool
  directory : Bool
  socket : Bool
  symbolic : Bool
deriving DecidableEq

/-- The flag record a `Dirent` of the given kind produces (exactly one flag
set, as Node guarantees for the four classifications used here). -/
def propsOfKind : Kind → Properties
  | Kind.file => ⟨true, false, false, false⟩
  | Kind.directory => ⟨false, true, false, false⟩
  | Kind.socket => ⟨false, false, true, false⟩
  | Kind.symbolic => ⟨false, false, false, true⟩

/-- A filesystem path, as a list of name segments (already absolute). -/
abbrev NodePath := List String

/-- The mutable filesystem state: the list of currently existing paths. -/
abbrev FSState := List NodePath

/-- Static environment: the classification of each node and the per-path
error behaviour of the filesystem primitives. -/
structure Env where
  kindOf : NodePath → Kind
  listErr : NodePath → Bool
  unlinkErr : NodePath → Option String
  rmForceErr : NodePath → Bool
  purgeErr : NodePath → Bool

/-- One filesystem call issued by the embedded code, for the event trace. -/
inductive Event where
  | probe (p : NodePath)
  | list (p : NodePath)
  | unlink (p : NodePath)
  | rmForce (p : NodePath)
  | warn
  | purge (p : NodePath)
deriving DecidableEq

/-- The errors `Remove` can propagate: a thrown `readdir` exception or a
thrown final `FS.rm` exception. -/
inductive RemoveError where
  | listingError (dir : NodePath)
  | finalizeError
deriving DecidableEq

/-- Result of running a piece of the embedded code: settled successfully,
settled with a propagated error, pending forever (a promise whose `resolve`
is never called), or out of recursion fuel. -/
inductive Outcome where
  | ok (s : FSState) (tr : List Event)
  | err (e : RemoveError) (s : FSState) (tr : List Event)
  | hang (s : FSState) (tr : List Event)
  | outOfFuel (s : FSState) (tr : List Event)
deriving DecidableEq

/-- The filesystem state carried by an outcome. -/
def Outcome.state : Outcome → FSState
  | Outcome.ok s _ => s
  | Outcome.err _ s _ => s
  | Outcome.hang s _ => s
  | Outcome.outOfFuel s _ => s

/-- The event trace carried by an outcome. -/
def Outcome.trace : Outcome → List Event
  | Outcome.ok _ tr => tr
  | Outcome.err _ _ tr => tr
  | Outcome.hang _ tr => tr
  | Outcome.outOfFuel _ tr => tr

/-- Prepend already-emitted events to an outcome's trace. -/
def withTrace (pre : List Event) : Outcome → Outcome
  | Outcome.ok s tr => Outcome.ok s (pre ++ tr)
  | Outcome.err e s tr => Outcome.err e s (pre ++ tr)
  | Outcome.hang s tr => Outcome.hang s (pre ++ tr)
  | Outcome.outOfFuel s tr => Outcome.outOfFuel s (pre ++ tr)

/-- Segment-level model of Node's path normalization (`Path.join` /
`Path.resolve` collapse `""` and `"."` segments and let `".."` pop the
previous segment; at the root `".."` stays at the root). -/
def normalizeSegs (segs : List String) : List String :=
  segs.foldl
    (fun acc seg =>
      if seg = "" ∨ seg = "." then acc
      else if seg = ".." then acc.dropLast
      else acc ++ [seg])
    []

/-- `Path.join(Path.resolve(location, name))` from `remap`: append the base
name to the (absolute) listing directory and normalize. -/
def joinResolve (location : NodePath) (name : String) : NodePath :=
  normalizeSegs (location ++ [name])

/-- `p` is an immediate child of `dir`. -/
def isChildOf (dir p : NodePath) : Bool :=
  decide (p.length = dir.length + 1) && dir.isPrefixOf p

/-- The base names `FS.readdir` reports for `dir` in the given state
(immediate children only; never `"."` or `".."`). -/
def childNames (s : FSState) (dir : NodePath) : List String :=
  (s.filter (isChildOf dir)).filterMap List.getLast?

/-- One `FS.Dirent`: a base name plus the type flags the listing reports for
that child. -/
structure Dirent where
  name : String
  kind : Kind
deriving DecidableEq

/-- The entry descriptor built by `remap`. -/
structure Descriptor where
  name : String
  path : NodePath
  properties : Properties
deriving DecidableEq

/-- The `Dirent`s `FS.readdir(location, { withFileTypes: true })` yields:
one per immediate child, flags taken from the child node itself. -/
def readdir (env : Env) (s : FSState) (location : NodePath) : List Dirent :=
  (childNames s location).map (fun n => ⟨n, env.kindOf (location ++ [n])⟩)

/-- `remap` from the source: each `Dirent` becomes a `Descriptor` whose
`path` is `Path.join(Path.resolve(location, descriptor.name))` and whose
`properties` are the `Dirent`'s type flags. -/
def remap (location : NodePath) (files : List Dirent) : List Descriptor :=
  files.map (fun d =>
    { name := d.name
      path := joinResolve location d.name
      properties := propsOfKind d.kind })

/-- `descriptors` from the source: `FS.readdir` then `remap`.  A listing
failure (the directory cannot be read, or no longer exists) throws; the
thrown exception is modelled as a propagated `listingError`. -/
def descriptors (env : Env) (s : FSState) (location : NodePath) :
    Except RemoveError (List Descriptor) :=
  if env.listErr location || !(decide (location ∈ s)) then
    Except.error (RemoveError.listingError location)
  else
    Except.ok (remap location (readdir env s location))

/-- Removing the single node at `p` from the state (what a successful
`FS.unlink(p)` or non-recursive `FS.rm(p, { force: true })` does). -/
def removeNode (s : FSState) (p : NodePath) : FSState :=
  s.filter (fun q => decide (q ≠ p))

/-- What a successful `FS.rm(t, { force: true, recursive: true })` does:
every path at or below `t` is removed. -/
def purgeTree (s : FSState) (t : NodePath) : FSState :=
  s.filter (fun q => !(t.isPrefixOf q))

/-- `valid` from the source (PathProbe): `FS.realpath` resolves exactly the
existing paths; every failure degrades to `false`. -/
def valid (s : FSState) (p : NodePath) : Bool :=
  decide (p ∈ s)

/-- The non-directory (leaf) branch of `clean`: re-probe existence, and if
present unlink.  In the unlink callback the retry guard is the assignment
`exception.code = "EPERM"` — always truthy — so every unlink failure takes
the forced-removal retry; the `console.warn` guard `(exception !== null)` is
evaluated only in the branch where `exception` is `null`, so it never fires.
When the probe fails, `(existence) && FS.unlink(...)` short-circuits and
nothing ever calls the surrounding promise's `resolve`: the await hangs. -/
def cleanLeaf (env : Env) (p : NodePath) (s : FSState) : Outcome :=
  if valid s p then
    let exception := env.unlinkErr p
    match exception with
    | some _ =>
        let s' := if env.rmForceErr p then s else removeNode s p
        Outcome.ok s' [Event.probe p, Event.unlink p, Event.rmForce p]
    | none =>
        let warnTr : List Event := if exception ≠ none then [Event.warn] else []
        Outcome.ok (removeNode s p) ([Event.probe p, Event.unlink p] ++ warnTr)
  else
    Outcome.hang s [Event.probe p]

/-- `clean` from the source, lifted to the sequential `for await` loop over a
list of descriptors: a directory is re-listed and its children are cleaned;
any other entry goes through the leaf branch; the next sibling starts only
after the current entry has settled successfully.  Fuel (consumed one unit
per processed entry) only bounds the recursion; exhaustion is the separate
`outOfFuel` outcome, so `ok`/`err`/`hang` results do not depend on the exact
fuel supplied, only on its sufficiency. -/
def cleanSeq (env : Env) : Nat → List Descriptor → FSState → Outcome
  | _, [], s => Outcome.ok s []
  | 0, _ :: _, s => Outcome.outOfFuel s []
  | f + 1, d :: rest, s =>
    let first : Outcome :=
      if d.properties.directory then
        match descriptors env s d.path with
        | Except.error e => Outcome.err e s [Event.list d.path]
        | Except.ok hs => withTrace [Event.list d.path] (cleanSeq env f hs s)
      else
        cleanLeaf env d.path s
    match first with
    | Outcome.ok s' tr => withTrace tr (cleanSeq env f rest s')
    | other => other

/-- `clean` from the source for one descriptor: recurse through a fresh
listing for directories (the switch on `descriptor.properties.directory`),
take the leaf branch for everything else. -/
def cleanEntry (env : Env) (fuel : Nat) (d : Descriptor) (s : FSState) :
    Outcome :=
  if d.properties.directory then
    match descriptors env s d.path with
    | Except.error e => Outcome.err e s [Event.list d.path]
    | Except.ok hs => withTrace [Event.list d.path] (cleanSeq env fuel hs s)
  else
    cleanLeaf env d.path s

/-- `finalize` from the source: `FS.rm(target, { force: true, recursive:
true })`; "not found" is success (`force`), any reported error is thrown. -/
def finalize (env : Env) (target : NodePath) (s : FSState) : Outcome :=
  if env.purgeErr target then
    Outcome.err RemoveError.finalizeError s [Event.purge target]
  else
    Outcome.ok (purgeTree s target) [Event.purge target]

/-- `Remove` from the source: probe the target; on absence return
successfully at once; otherwise list the top level (a failure propagates),
clean every top-level entry sequentially, then run `finalize` exactly once.
The `catch` clause rethrows, so errors propagate unchanged. -/
def Remove (env : Env) (fuel : Nat) (target : NodePath) (s : FSState) :
    Outcome :=
  if valid s target then
    match descriptors env s target with
    | Except.error e =>
        Outcome.err e s [Event.probe target, Event.list target]
    | Except.ok ts =>
        match cleanSeq env fuel ts s with
        | Outcome.ok s' tr =>
            withTrace ([Event.probe target, Event.list target] ++ tr)
              (finalize env target s')
        | Outcome.err e s' tr =>
            Outcome.err e s' ([Event.probe target, Event.list target] ++ tr)
        | Outcome.hang s' tr =>
            Outcome.hang s' ([Event.probe target, Event.list target] ++ tr)
        | Outcome.outOfFuel s' tr =>
            Outcome.outOfFuel s' ([Event.probe target, Event.list target] ++ tr)
  else
    Outcome.ok s [Event.probe target]

/-- An environment in which no filesystem primitive ever fails; every node
is classified by the explicit kind table passed in. -/
def envOfKinds (k : NodePath → Kind) : Env :=
  { kindOf := k
    listErr := fun _ => false
    unlinkErr := fun _ => none
    rmForceErr := fun _ => false
    purgeErr := fun _ => false }

/-- All-files classification with no failures at all. -/
def envNoErr : Env := envOfKinds (fun _ => Kind.file)

/-! ### Concrete scenarios

Small closed instances used to exercise the embedding: an unlink failing
with a non-permission code, a vanished leaf, a mid-recursion listing
failure, a top-level listing failure, and the spec's mixed-content tree
`root/\x7ba.txt, b/\x7bc.txt\x7d, d -> symlink elsewhere\x7d`. -/

/-- Unlink of `t/a` fails with `EBUSY` (a non-permission error code). -/
def envBusy : Env :=
  { envNoErr with
    unlinkErr := fun p => if p = ["t", "a"] then some "EBUSY" else none }

def stateBusy : FSState := [["t"], ["t", "a"]]

def descBusy : Descriptor :=
  { name := "a", path := ["t", "a"], properties := propsOfKind Kind.file }

/-- A leaf descriptor whose path no longer exists in the state below. -/
def descMissing : Descriptor :=
  { name := "a", path := ["t", "a"], properties := propsOfKind Kind.file }

def stateMissing : FSState := [["t"]]

/-- `t/d` is a directory whose listing fails; `t` itself lists fine. -/
def envMid : Env :=
  { envOfKinds (fun p => if p = ["t", "d"] then Kind.directory else Kind.file)
    with listErr := fun p => decide (p = ["t", "d"]) }

def stateMid : FSState := [["t"], ["t", "d"]]

def descMid : Descriptor :=
  { name := "d", path := ["t", "d"], properties := propsOfKind Kind.directory }

/-- The top-level target `t` itself cannot be listed. -/
def envTop : Env :=
  { envNoErr with listErr := fun p => decide (p = ["t"]) }

/-- Kinds of the spec's mixed-content scenario: `root` and `root/b` are
directories, `root/d` is a symbolic link, everything else a file. -/
def kindsMixed : NodePath → Kind := fun p =>
  if p = ["root"] ∨ p = ["root", "b"] then Kind.directory
  else if p = ["root", "d"] then Kind.symbolic
  else Kind.file

def envMixed : Env := envOfKinds kindsMixed

/-- `root/\x7ba.txt, b/\x7bc.txt\x7d, d\x7d` plus an unrelated tree
`elsewhere/x` standing for the symlink's target location. -/
def stateMixed : FSState :=
  [["root"], ["root", "a.txt"], ["root", "b"], ["root", "b", "c.txt"],
   ["root", "d"], ["elsewhere"], ["elsewhere", "x"]]

/-- End state of `Remove` on the mixed tree: only the unrelated tree is
left. -/
def stateMixedFinal : FSState := [["elsewhere"], ["elsewhere", "x"]]

/-- The full event trace of `Remove envMixed 5 ["root"] stateMixed`. -/
def traceMixed : List Event :=
  [Event.probe ["root"], Event.list ["root"],
   Event.probe ["root", "a.txt"], Event.unlink ["root", "a.txt"],
   Event.list ["root", "b"],
   Event.probe ["root", "b", "c.txt"], Event.unlink ["root", "b", "c.txt"],
   Event.probe ["root", "d"], Event.unlink ["root", "d"],
   Event.purge ["root"]]

/-- A symbolic-link descriptor, as `remap` classifies `root/d`. -/
def descSym : Descriptor :=
  { name := "d", path := ["root", "d"], properties := propsOfKind Kind.symbolic }

def stateSym : FSState := [["root"], ["root", "d"], ["elsewhere"]]

def stateListing : FSState := [["root"], ["root", "a"]]

def descListing : Descriptor :=
  { name := "a", path := ["root", "a"], properties := propsOfKind Kind.file }

/-! ### Wellformed paths

`FS.readdir` reports base names only, never `""`, `"."` or `".."`; real
filesystem states therefore consist of paths whose segments are all proper
base names.  The lemmas about path containment need exactly this. -/

/-- A string that can occur as a base name in a directory listing. -/
def ProperSeg (x : String) : Prop :=
  x ≠ "" ∧ x ≠ "." ∧ x ≠ ".."

instance (x : String) : Decidable (ProperSeg x) := by
  unfold ProperSeg; infer_instance

/-- Every segment of the path is a proper base name. -/
def ProperPath (p : NodePath) : Prop :=
  ∀ x ∈ p, ProperSeg x

instance (p : NodePath) : Decidable (ProperPath p) := by
  unfold ProperPath; infer_instance

/-- Every existing path of the state is proper. -/
def ProperState (s : FSState) : Prop :=
  ∀ p ∈ s, ProperPath p

instance (s : FSState) : Decidable (ProperState s) := by
  unfold ProperState; infer_instance

lemma ProperPath.append_seg {l : NodePath} {n : String}
    (hl : ProperPath l) (hn : ProperSeg n) : ProperPath (l ++ [n]) := by
  intro x hx
  rcases List.mem_append.mp hx with h | h
  · exact hl x h
  · rcases List.mem_singleton.mp h with rfl
    exact hn

lemma normalizeSegs_foldl (p : List String) (h : ProperPath p) :
    ∀ acc : List String,
      p.foldl
        (fun acc seg =>
          if seg = "" ∨ seg = "." then acc
          else if seg = ".." then acc.dropLast
          else acc ++ [seg])
        acc = acc ++ p := by
  induction p with
  | nil => intro acc; simp
  | cons x xs ih =>
    intro acc
    obtain ⟨h1, h2, h3⟩ : ProperSeg x := h x (List.mem_cons_self x xs)
    have hxs : ProperPath xs := fun y hy => h y (List.mem_cons_of_mem x hy)
    simp only [List.foldl_cons]
    rw [if_neg (by tauto), if_neg h3, ih hxs]
    simp

/-- Normalization fixes paths made of proper base names. -/
lemma normalizeSegs_of_proper {p : List String} (h : ProperPath p) :
    normalizeSegs p = p := by
  unfold normalizeSegs
  simpa using normalizeSegs_foldl p h []

/-- For a proper base name, `Path.join(Path.resolve(location, name))` is the
plain one-segment extension of the listing directory. -/
lemma joinResolve_of_proper {location : NodePath} {n : String}
    (hl : ProperPath location) (hn : ProperSeg n) :
    joinResolve location n = location ++ [n] := by
  unfold joinResolve
  exact normalizeSegs_of_proper (hl.append_seg hn)

/-! ### State and listing lemmas -/

lemma mem_removeNode {s : FSState} {p q : NodePath} :
    q ∈ removeNode s p ↔ q ∈ s ∧ q ≠ p := by
  unfold removeNode
  simp [List.mem_filter]

lemma isPrefixOf_eq_false_iff {a b : NodePath} :
    a.isPrefixOf b = false ↔ ¬ a <+: b := by
  rw [Bool.eq_false_iff, Ne, List.isPrefixOf_iff_prefix]

lemma mem_purgeTree {s : FSState} {t q : NodePath} :
    q ∈ purgeTree s t ↔ q ∈ s ∧ ¬ t <+: q := by
  unfold purgeTree
  simp [List.mem_filter, Bool.not_eq_true', isPrefixOf_eq_false_iff]

/-- After a successful recursive purge the target no longer resolves. -/
lemma valid_purgeTree_self (s : FSState) (t : NodePath) :
    valid (purgeTree s t) t = false := by
  unfold valid
  simp [mem_purgeTree]

/-- A name reported by a listing of `dir` names an existing immediate child
of `dir`. -/
lemma mem_childNames {s : FSState} {dir : NodePath} {n : String}
    (h : n ∈ childNames s dir) : dir ++ [n] ∈ s := by
  unfold childNames at h
  rw [List.mem_filterMap] at h
  obtain ⟨p, hp, hlast⟩ := h
  rw [List.mem_filter] at hp
  obtain ⟨hps, hchild⟩ := hp
  unfold isChildOf at hchild
  rw [Bool.and_eq_true, decide_eq_true_eq, List.isPrefixOf_iff_prefix] at hchild
  obtain ⟨hlen, ts, rfl⟩ := hchild
  have hts : ts.length = 1 := by
    simp only [List.length_append] at hlen
    omega
  obtain ⟨m, rfl⟩ := List.length_eq_one.mp hts
  rw [List.getLast?_concat] at hlast
  cases hlast
  exact hps

/-- Inversion of a successful `descriptors` call: every produced descriptor
comes from one reported child name via `remap`. -/
lemma descriptors_ok_mem {env : Env} {s : FSState} {location : NodePath}
    {ds : List Descriptor} (h : descriptors env s location = Except.ok ds)
    {d : Descriptor} (hd : d ∈ ds) :
    ∃ n ∈ childNames s location,
      d = ⟨n, joinResolve location n, propsOfKind (env.kindOf (location ++ [n]))⟩ := by
  unfold descriptors at h
  split at h
  · cases h
  · cases h
    unfold remap readdir at hd
    rw [List.map_map, List.mem_map] at hd
    obtain ⟨n, hn, rfl⟩ := hd
    exact ⟨n, hn, rfl⟩

/-- In a proper state, every descriptor a successful listing of `location`
produces has the one-segment-extension path, which is itself proper and
exists in the state. -/
lemma descriptors_ok_path {env : Env} {s : FSState} {location : NodePath}
    {ds : List Descriptor} (hps : ProperState s) (hpl : ProperPath location)
    (h : descriptors env s location = Except.ok ds)
    {d : Descriptor} (hd : d ∈ ds) :
    d.path = location ++ [d.name] ∧ ProperPath d.path ∧ d.path ∈ s := by
  obtain ⟨n, hn, rfl⟩ := descriptors_ok_mem h hd
  have hmem : location ++ [n] ∈ s := mem_childNames hn
  have hpp : ProperPath (location ++ [n]) := hps _ hmem
  have hn' : ProperSeg n := hpp n (by simp)
  have hpath : joinResolve location n = location ++ [n] :=
    joinResolve_of_proper hpl hn'
  exact ⟨hpath, by rw [hpath]; exact hpp, by rw [hpath]; exact hmem⟩

/-! ### DeletionWalker lemmas -/

@[simp] lemma withTrace_state (pre : List Event) (o : Outcome) :
    (withTrace pre o).state = o.state := by
  cases o <;> rfl

@[simp] lemma withTrace_trace (pre : List Event) (o : Outcome) :
    (withTrace pre o).trace = pre ++ o.trace := by
  cases o <;> rfl

lemma withTrace_ok_iff {pre : List Event} {o : Outcome} {s : FSState}
    {tr : List Event} :
    withTrace pre o = Outcome.ok s tr ↔
      ∃ tr₀, o = Outcome.ok s tr₀ ∧ tr = pre ++ tr₀ := by
  cases o <;> simp [withTrace, eq_comm]
  aesop

/-- Closed form of the leaf branch of `clean`. -/
lemma cleanLeaf_eq (env : Env) (p : NodePath) (s : FSState) :
    cleanLeaf env p s =
      if valid s p then
        match env.unlinkErr p with
        | some _ =>
            Outcome.ok (if env.rmForceErr p then s else removeNode s p)
              [Event.probe p, Event.unlink p, Event.rmForce p]
        | none => Outcome.ok (removeNode s p) [Event.probe p, Event.unlink p]
      else Outcome.hang s [Event.probe p] := by
  unfold cleanLeaf
  rcases he : env.unlinkErr p with _ | c <;> simp [he]

/-- The leaf branch leaves the state at `s` or removes exactly `p`. -/
lemma cleanLeaf_state_cases (env : Env) (p : NodePath) (s : FSState) :
    (cleanLeaf env p s).state = s ∨
    (cleanLeaf env p s).state = removeNode s p := by
  rw [cleanLeaf_eq]
  by_cases hv : valid s p <;> rcases env.unlinkErr p with _ | c <;>
    by_cases hr : env.rmForceErr p <;> simp [hv, hr, Outcome.state]

lemma cleanLeaf_state_mem {env : Env} {p : NodePath} {s : FSState}
    {q : NodePath} (h : q ∈ (cleanLeaf env p s).state) : q ∈ s := by
  rcases cleanLeaf_state_cases env p s with hc | hc <;> rw [hc] at h
  · exact h
  · exact (mem_removeNode.mp h).1

lemma cleanLeaf_frame {env : Env} {p : NodePath} {s : FSState}
    {q : NodePath} (hq : q ≠ p) :
    q ∈ (cleanLeaf env p s).state ↔ q ∈ s := by
  rcases cleanLeaf_state_cases env p s with hc | hc <;> rw [hc]
  simp [mem_removeNode, hq]

/-- Every event the leaf branch emits concerns `p`, and none of them is a
listing or a purge. -/
lemma cleanLeaf_trace_sub (env : Env) (p : NodePath) (s : FSState) :
    (cleanLeaf env p s).trace ⊆
      [Event.probe p, Event.unlink p, Event.rmForce p] := by
  rw [cleanLeaf_eq]
  by_cases hv : valid s p <;> rcases env.unlinkErr p with _ | c <;>
    simp [hv, Outcome.trace, List.subset_def]

/-- One step of the sequential `for await` loop: settle the head entry via
`clean`, then continue with the remaining siblings on the resulting state. -/
lemma cleanSeq_cons (env : Env) (f : Nat) (d : Descriptor)
    (rest : List Descriptor) (s : FSState) :
    cleanSeq env (f + 1) (d :: rest) s =
      match cleanEntry env f d s with
      | Outcome.ok s' tr => withTrace tr (cleanSeq env f rest s')
      | other => other := rfl

@[simp] lemma cleanSeq_nil (env : Env) (fuel : Nat) (s : FSState) :
    cleanSeq env fuel [] s = Outcome.ok s [] := by
  cases fuel <;> rfl

/-- Either the head entry settles successfully and the loop continues on the
resulting state, or the loop's outcome is the head entry's outcome. -/
lemma cleanSeq_cons_cases (env : Env) (f : Nat) (d : Descriptor)
    (rest : List Descriptor) (s : FSState) :
    (∃ s₁ tr, cleanEntry env f d s = Outcome.ok s₁ tr ∧
      cleanSeq env (f + 1) (d :: rest) s =
        withTrace tr (cleanSeq env f rest s₁)) ∨
    (cleanSeq env (f + 1) (d :: rest) s = cleanEntry env f d s ∧
      ∀ s₁ tr, cleanEntry env f d s ≠ Outcome.ok s₁ tr) := by
  rw [cleanSeq_cons]
  cases hstep : cleanEntry env f d s with
  | ok s₁ tr => exact Or.inl ⟨s₁, tr, rfl, rfl⟩
  | err e s₁ tr => exact Or.inr ⟨rfl, by simp⟩
  | hang s₁ tr => exact Or.inr ⟨rfl, by simp⟩
  | outOfFuel s₁ tr => exact Or.inr ⟨rfl, by simp⟩

/-- The walker never adds paths: its final state is a subset of the input
state, whatever the outcome. -/
lemma cleanSeq_state_mem (env : Env) :
    ∀ (fuel : Nat) (ds : List Descriptor) (s : FSState) (q : NodePath),
      q ∈ (cleanSeq env fuel ds s).state → q ∈ s := by
  intro fuel
  induction fuel with
  | zero =>
    intro ds s q h
    cases ds <;> simpa [cleanSeq, Outcome.state] using h
  | succ f ih =>
    intro ds s q h
    cases ds with
    | nil => simpa [Outcome.state] using h
    | cons d rest =>
      have hce : ∀ q, q ∈ (cleanEntry env f d s).state → q ∈ s := by
        intro q h
        unfold cleanEntry at h
        split at h
        · rcases hdesc : descriptors env s d.path with e | hs <;>
            rw [hdesc] at h
          · simpa [Outcome.state] using h
          · rw [withTrace_state] at h
            exact ih hs s q h
        · exact cleanLeaf_state_mem h
      rcases cleanSeq_cons_cases env f d rest s with
        ⟨s₁, tr, hok, heq⟩ | ⟨heq, _⟩
      · rw [heq, withTrace_state] at h
        have h₁ : q ∈ s₁ := ih rest s₁ q h
        exact hce q (by rw [hok]; exact h₁)
      · rw [heq] at h
        exact hce q h

/-- A (proper) state stays proper under the walker. -/
lemma ProperState.cleanSeq {env : Env} {fuel : Nat} {ds : List Descriptor}
    {s : FSState} (hps : ProperState s) :
    ProperState (cleanSeq env fuel ds s).state :=
  fun p hp => hps p (cleanSeq_state_mem env fuel ds s p hp)

/-- Frame property of the walker: a path that no processed descriptor's path
is a prefix of survives the whole traversal untouched.  Needs properness so
that the per-listing path computation really is the one-segment extension. -/
lemma cleanSeq_frame (env : Env) :
    ∀ (fuel : Nat) (ds : List Descriptor) (s : FSState),
      ProperState s → (∀ d ∈ ds, ProperPath d.path) →
      ∀ q : NodePath, (∀ d ∈ ds, ¬ d.path <+: q) →
      (q ∈ (cleanSeq env fuel ds s).state ↔ q ∈ s) := by
  intro fuel
  induction fuel with
  | zero =>
    intro ds s _ _ q _
    cases ds <;> simp [cleanSeq, Outcome.state]
  | succ f ih =>
    intro ds s hps hproper q hq
    cases ds with
    | nil => simp [Outcome.state]
    | cons d rest =>
      have hpd : ProperPath d.path := hproper d (List.mem_cons_self d rest)
      have hqd : ¬ d.path <+: q := hq d (List.mem_cons_self d rest)
      have hce : q ∈ (cleanEntry env f d s).state ↔ q ∈ s := by
        unfold cleanEntry
        split
        · rcases hdesc : descriptors env s d.path with e | hs
          · simp [Outcome.state]
          · rw [withTrace_state]
            refine ih hs s hps ?_ q ?_
            · intro h hh
              exact (descriptors_ok_path hps hpd hdesc hh).2.1
            · intro h hh hpre
              obtain ⟨hpath, _, _⟩ := descriptors_ok_path hps hpd hdesc hh
              refine hqd (List.IsPrefix.trans ?_ hpre)
              rw [hpath]
              exact List.prefix_append d.path [h.name]
        · refine cleanLeaf_frame ?_
          intro hqe
          exact hqd (hqe ▸ List.prefix_refl q)
      rcases cleanSeq_cons_cases env f d rest s with
        ⟨s₁, tr, hok, heq⟩ | ⟨heq, _⟩
      · rw [heq, withTrace_state]
        have hs₁ : ProperState s₁ := by
          intro p hp
          refine hps p ?_
          have : p ∈ (cleanEntry env f d s).state := by rw [hok]; exact hp
          revert this
          unfold cleanEntry
          split
          · rcases hdesc : descriptors env s d.path with e | hs
            · simp [Outcome.state]
            · rw [withTrace_state]
              exact cleanSeq_state_mem env f hs s p
          · exact cleanLeaf_state_mem
        have hrest := ih rest s₁ hs₁
          (fun x hx => hproper x (List.mem_cons_of_mem d hx)) q
          (fun x hx => hq x (List.mem_cons_of_mem d hx))
        rw [hrest]
        have : q ∈ (cleanEntry env f d s).state ↔ q ∈ s := hce
        rw [hok] at this
        exact this
      · rw [heq]
        exact hce

/-- The walker never issues the recursive forced purge: no `purge` event
occurs in any trace it produces. -/
lemma cleanSeq_trace_no_purge (env : Env) :
    ∀ (fuel : Nat) (ds : List Descriptor) (s : FSState) (q : NodePath),
      Event.purge q ∉ (cleanSeq env fuel ds s).trace := by
  intro fuel
  induction fuel with
  | zero =>
    intro ds s q h
    cases ds <;> simp [cleanSeq, Outcome.trace] at h
  | succ f ih =>
    intro ds s q h
    cases ds with
    | nil => simp [Outcome.trace] at h
    | cons d rest =>
      have hce : ∀ o, cleanEntry env f d s = o → Event.purge q ∉ o.trace := by
        rintro o rfl
        unfold cleanEntry
        split
        · rcases hdesc : descriptors env s d.path with e | hs
          · simp [Outcome.trace]
          · rw [withTrace_trace]
            intro hmem
            rcases List.mem_append.mp hmem with hmem | hmem
            · simp at hmem
            · exact ih hs s q hmem
        · intro hmem
          have := cleanLeaf_trace_sub env d.path s hmem
          simp at this
      rcases cleanSeq_cons_cases env f d rest s with
        ⟨s₁, tr, hok, heq⟩ | ⟨heq, _⟩
      · rw [heq, withTrace_trace] at h
        rcases List.mem_append.mp h with hmem | hmem
        · have := hce _ hok
          rw [Outcome.trace] at this
          exact this hmem
        · exact ih rest s₁ q hmem
      · rw [heq] at h
        exact hce _ rfl h

/-! ### Orchestrator inversion -/

/-- Inversion of a successful `Remove`: either the probe failed and nothing
happened, or the probe succeeded, the top-level listing succeeded, the whole
walk settled successfully, and the single final purge succeeded, with the
trace decomposing in exactly that order. -/
lemma Remove_ok_inv {env : Env} {fuel : Nat} {t : NodePath} {s s' : FSState}
    {tr : List Event} (h : Remove env fuel t s = Outcome.ok s' tr) :
    (valid s t = false ∧ s' = s ∧ tr = [Event.probe t]) ∨
    (valid s t = true ∧ ∃ ds s₁ tr₀,
      descriptors env s t = Except.ok ds ∧
      cleanSeq env fuel ds s = Outcome.ok s₁ tr₀ ∧
      env.purgeErr t = false ∧
      s' = purgeTree s₁ t ∧
      tr = [Event.probe t, Event.list t] ++ tr₀ ++ [Event.purge t]) := by
  unfold Remove at h
  split at h
  case isFalse hv =>
    injection h with h₁ h₂
    exact Or.inl ⟨by simpa using hv, h₁.symm, h₂.symm⟩
  case isTrue hv =>
    refine Or.inr ⟨hv, ?_⟩
    split at h
    next e heq => cases h
    next ts heq =>
      split at h
      next s₁ tr₀ hcs =>
        unfold finalize at h
        split at h
        next hp => simp [withTrace] at h
        next hp =>
          simp only [withTrace] at h
          injection h with h₁s h₁t
          exact ⟨ts, s₁, tr₀, heq, hcs, by simpa using hp, h₁s.symm,
            by rw [← h₁t]⟩
      next e s₁ tr₀ hcs => cases h
      next s₁ tr₀ hcs => cases h
      next s₁ tr₀ hcs => cases h

/-- A successful `Remove` does not resolve the target any more. -/
lemma Remove_ok_absent {env : Env} {fuel : Nat} {t : NodePath}
    {s s' : FSState} {tr : List Event}
    (h : Remove env fuel t s = Outcome.ok s' tr) : valid s' t = false := by
  rcases Remove_ok_inv h with ⟨hv, rfl, _⟩ | ⟨_, _, s₁, _, _, _, _, rfl, _⟩
  · exact hv
  · exact valid_purgeTree_self s₁ t

/-! ### The claims -/

/-- C1.  For every successful call `Remove(p)`, the path `p` does not exist
at completion: a subsequent existence probe (PathProbe / `valid`) of `p`
returns false, whether `p` existed beforehand or not. -/
theorem remove_postcondition :
    ∀ (env : Env) (fuel : Nat) (t : NodePath) (s s' : FSState)
      (tr : List Event),
      Remove env fuel t s = Outcome.ok s' tr → valid s' t = false :=
  fun _ _ _ _ _ _ h => Remove_ok_absent h

theorem remove_postcondition_witness :
    Remove envNoErr 1 ["t"] [["t"]] =
        Outcome.ok [] [Event.probe ["t"], Event.list ["t"], Event.purge ["t"]] ∧
      valid [] ["t"] = false :=
  ⟨by decide,
    remove_postcondition envNoErr 1 ["t"] [["t"]] []
      [Event.probe ["t"], Event.list ["t"], Event.purge ["t"]] (by decide)⟩

/-- C2.  For every target that exists but whose top-level directory listing
fails, `Remove` fails with the `ListingError` of the target (the listing
failure propagates to the caller) and the Finalizer purge is never
attempted (no `purge` event occurs). -/
theorem remove_top_listing_error :
    ∀ (env : Env) (fuel : Nat) (t : NodePath) (s : FSState),
      valid s t = true → env.listErr t = true →
      Remove env fuel t s =
          Outcome.err (RemoveError.listingError t) s
            [Event.probe t, Event.list t] ∧
        ∀ q, Event.purge q ∉ (Remove env fuel t s).trace := by
  intro env fuel t s hv hl
  have hdesc : descriptors env s t = Except.error (RemoveError.listingError t) := by
    unfold descriptors
    rw [if_pos]
    rw [hl]
    simp
  have heq : Remove env fuel t s =
      Outcome.err (RemoveError.listingError t) s
        [Event.probe t, Event.list t] := by
    unfold Remove
    rw [if_pos hv, hdesc]
  refine ⟨heq, ?_⟩
  intro q
  rw [heq]
  simp [Outcome.trace]

theorem remove_top_listing_error_witness :
    valid [["t"]] ["t"] = true ∧ envTop.listErr ["t"] = true ∧
      Remove envTop 1 ["t"] [["t"]] =
        Outcome.err (RemoveError.listingError ["t"]) [["t"]]
          [Event.probe ["t"], Event.list ["t"]] ∧
      Event.purge ["t"] ∉ (Remove envTop 1 ["t"] [["t"]]).trace := by
  obtain ⟨h1, h2⟩ :=
    remove_top_listing_error envTop 1 ["t"] [["t"]] (by decide) (by decide)
  exact ⟨by decide, by decide, h1, h2 ["t"]⟩

/-- C5.  `Remove` is idempotent: once a call on `p` has succeeded, a second
call on the same path never fails — it succeeds as a pure no-op — and the
end state (with `p` absent) is exactly the state the single call left. -/
theorem remove_idempotent :
    ∀ (env : Env) (fuel fuel₂ : Nat) (t : NodePath) (s s' : FSState)
      (tr : List Event),
      Remove env fuel t s = Outcome.ok s' tr →
      Remove env fuel₂ t s' = Outcome.ok s' [Event.probe t] ∧
        valid s' t = false := by
  intro env fuel fuel₂ t s s' tr h
  have habs : valid s' t = false := Remove_ok_absent h
  refine ⟨?_, habs⟩
  unfold Remove
  rw [if_neg]
  rw [habs]
  simp

theorem remove_idempotent_witness :
    Remove envNoErr 1 ["t"] [] = Outcome.ok [] [Event.probe ["t"]] ∧
      valid [] ["t"] = false :=
  remove_idempotent envNoErr 1 1 ["t"] [["t"]] []
    [Event.probe ["t"], Event.list ["t"], Event.purge ["t"]] (by decide)

/-- C6.  For every path that does not exist (the probe returns false),
`Remove` returns successfully with the state unchanged and performs no
filesystem mutation: no listing, no unlink, no forced removal and no purge
is issued — the trace is the single existence probe. -/
theorem remove_noop_on_absent :
    ∀ (env : Env) (fuel : Nat) (t : NodePath) (s : FSState),
      valid s t = false →
      Remove env fuel t s = Outcome.ok s [Event.probe t] ∧
        (∀ q, Event.list q ∉ (Remove env fuel t s).trace) ∧
        (∀ q, Event.unlink q ∉ (Remove env fuel t s).trace) ∧
        (∀ q, Event.rmForce q ∉ (Remove env fuel t s).trace) ∧
        (∀ q, Event.purge q ∉ (Remove env fuel t s).trace) := by
  intro env fuel t s hv
  have heq : Remove env fuel t s = Outcome.ok s [Event.probe t] := by
    unfold Remove
    rw [if_neg]
    rw [hv]
    simp
  refine ⟨heq, ?_, ?_, ?_, ?_⟩ <;>
    · intro q
      rw [heq]
      simp [Outcome.trace]

theorem remove_noop_on_absent_witness :
    Remove envNoErr 1 ["t"] [["other"]] =
        Outcome.ok [["other"]] [Event.probe ["t"]] ∧
      Event.list ["t"] ∉ (Remove envNoErr 1 ["t"] [["other"]]).trace ∧
      Event.unlink ["t"] ∉ (Remove envNoErr 1 ["t"] [["other"]]).trace ∧
      Event.rmForce ["t"] ∉ (Remove envNoErr 1 ["t"] [["other"]]).trace ∧
      Event.purge ["t"] ∉ (Remove envNoErr 1 ["t"] [["other"]]).trace := by
  obtain ⟨h1, h2, h3, h4, h5⟩ :=
    remove_noop_on_absent envNoErr 1 ["t"] [["other"]] (by decide)
  exact ⟨h1, h2 ["t"], h3 ["t"], h4 ["t"], h5 ["t"]⟩

/-- C3 (code evaluation at the failing input).  A leaf whose unlink fails
with `EBUSY` — not a permission-denied kind — nevertheless takes the forced
non-recursive removal retry (an `rmForce` event is emitted), and no warning
is ever recorded: the guard `exception.code = "EPERM"` in the source is an
assignment, hence always truthy, and the `console.warn` guard
`(exception !== null)` sits in the branch where `exception` is `null`. -/
theorem clean_nonpermission_failure_retries :
    envBusy.unlinkErr ["t", "a"] = some "EBUSY" ∧
      "EBUSY" ≠ "EPERM" ∧
      cleanEntry envBusy 0 descBusy stateBusy =
        Outcome.ok [["t"]]
          [Event.probe ["t", "a"], Event.unlink ["t", "a"],
           Event.rmForce ["t", "a"]] ∧
      Event.rmForce ["t", "a"] ∈ (cleanEntry envBusy 0 descBusy stateBusy).trace ∧
      Event.warn ∉ (cleanEntry envBusy 0 descBusy stateBusy).trace := by
  refine ⟨by decide, by decide, by decide, by decide, by decide⟩

/-- C4 (code evaluation at the failing input).  For a leaf whose path no
longer exists, `clean` issues no unlink — but it also never settles: the
promise wrapping the leaf branch is resolved only inside the unlink
callback, and `(existence) && FS.unlink(...)` short-circuits, so the
outcome is a hang, not a successful completion. -/
theorem clean_missing_leaf_hangs :
    valid stateMissing ["t", "a"] = false ∧
      cleanEntry envNoErr 0 descMissing stateMissing =
        Outcome.hang stateMissing [Event.probe ["t", "a"]] ∧
      Event.unlink ["t", "a"] ∉
        (cleanEntry envNoErr 0 descMissing stateMissing).trace := by
  refine ⟨by decide, by decide, by decide⟩

/-- C7.  Within one `Remove` invocation on an existing target, the walk is
the sequential settling of the top-level descriptors (`cleanSeq` returning
`ok` means every recursive `clean` call has settled), and the Finalizer
purge happens exactly once, strictly after the whole walk's trace, never
inside it. -/
theorem remove_purge_once_after_walk :
    ∀ (env : Env) (fuel : Nat) (t : NodePath) (s s' : FSState)
      (tr : List Event),
      valid s t = true →
      Remove env fuel t s = Outcome.ok s' tr →
      ∃ ds s₁ tr₀,
        descriptors env s t = Except.ok ds ∧
        cleanSeq env fuel ds s = Outcome.ok s₁ tr₀ ∧
        tr = [Event.probe t, Event.list t] ++ tr₀ ++ [Event.purge t] ∧
        (∀ q, Event.purge q ∉ tr₀) ∧
        tr.count (Event.purge t) = 1 := by
  intro env fuel t s s' tr hv h
  rcases Remove_ok_inv h with ⟨hv', _, _⟩ | ⟨_, ds, s₁, tr₀, hdesc, hcs, _, _, htr⟩
  · rw [hv] at hv'
    cases hv'
  · have hnp : ∀ q, Event.purge q ∉ tr₀ := by
      intro q hq
      have := cleanSeq_trace_no_purge env fuel ds s q
      rw [hcs] at this
      exact this hq
    refine ⟨ds, s₁, tr₀, hdesc, hcs, htr, hnp, ?_⟩
    rw [htr]
    rw [List.count_append, List.count_append]
    have h₀ : List.count (Event.purge t) [Event.probe t, Event.list t] = 0 := by
      simp
    have h₁ : List.count (Event.purge t) tr₀ = 0 :=
      List.count_eq_zero.mpr (hnp t)
    rw [h₀, h₁]
    simp

theorem remove_purge_once_after_walk_witness :
    traceMixed.count (Event.purge ["root"]) = 1 := by
  obtain ⟨_, _, _, _, _, _, _, hcount⟩ :=
    remove_purge_once_after_walk envMixed 5 ["root"] stateMixed
      stateMixedFinal traceMixed (by decide) (by decide)
  exact hcount

/-- C8 counterexample.  A listing failure met mid-recursion (on `t/d`,
while the top-level `t` lists fine) is fatal to the whole `Remove` call:
the operation fails with that subdirectory's `ListingError`, no warning is
recorded, and the Finalizer is never reached — refuting the claim that a
mid-recursion listing failure is non-fatal and merely recorded as a
warning. -/
theorem clean_mid_listing_error_fatal_cex :
    envMid.listErr ["t"] = false ∧
      Remove envMid 2 ["t"] stateMid =
        Outcome.err (RemoveError.listingError ["t", "d"]) stateMid
          [Event.probe ["t"], Event.list ["t"], Event.list ["t", "d"]] ∧
      Event.warn ∉ (Remove envMid 2 ["t"] stateMid).trace ∧
      Event.purge ["t"] ∉ (Remove envMid 2 ["t"] stateMid).trace := by
  refine ⟨by decide, by decide, by decide, by decide⟩

/-- C8 (amended).  A listing failure encountered mid-recursion propagates
exactly like the top-level one: the walker rethrows the subdirectory's
`ListingError` through `Remove`, nothing is recorded as a warning, and the
Finalizer pass is not reached. -/
theorem clean_mid_listing_error_propagates :
    ∀ (env : Env) (fuel : Nat) (t : NodePath) (s : FSState) (d : Descriptor)
      (ds₀ : List Descriptor),
      valid s t = true →
      descriptors env s t = Except.ok (d :: ds₀) →
      d.properties.directory = true →
      env.listErr d.path = true →
      Remove env (fuel + 1) t s =
        Outcome.err (RemoveError.listingError d.path) s
          [Event.probe t, Event.list t, Event.list d.path] := by
  intro env fuel t s d ds₀ hv hdesc hd hl
  have hce : cleanEntry env fuel d s =
      Outcome.err (RemoveError.listingError d.path) s [Event.list d.path] := by
    unfold cleanEntry
    rw [if_pos hd]
    have : descriptors env s d.path =
        Except.error (RemoveError.listingError d.path) := by
      unfold descriptors
      rw [if_pos]
      rw [hl]
      simp
    rw [this]
  have hcs : cleanSeq env (fuel + 1) (d :: ds₀) s =
      Outcome.err (RemoveError.listingError d.path) s [Event.list d.path] := by
    rw [cleanSeq_cons, hce]
  unfold Remove
  rw [if_pos hv, hdesc]
  simp only [hcs]
  rfl

theorem clean_mid_listing_error_propagates_witness :
    Remove envMid (1 + 1) ["t"] stateMid =
      Outcome.err (RemoveError.listingError ["t", "d"]) stateMid
        [Event.probe ["t"], Event.list ["t"], Event.list ["t", "d"]] :=
  clean_mid_listing_error_propagates envMid 1 ["t"] stateMid descMid []
    (by decide) (by rfl) (by decide) (by decide)

/-- C9.  A symbolic-link entry is handled by the same leaf path as files
and sockets: `clean` never lists (hence never recurses into or follows) it
and touches no path other than the link's own; and a successful `Remove` on
a proper state leaves every path outside the target subtree — in particular
the link's target location — unchanged. -/
theorem clean_symbolic_leaf_no_follow :
    (∀ (env : Env) (fuel : Nat) (d : Descriptor) (s : FSState),
      d.properties.symbolic = true → d.properties.directory = false →
      (∀ q, Event.list q ∉ (cleanEntry env fuel d s).trace) ∧
      (∀ q, q ≠ d.path → (q ∈ (cleanEntry env fuel d s).state ↔ q ∈ s))) ∧
    (∀ (env : Env) (fuel : Nat) (t : NodePath) (s s' : FSState)
      (tr : List Event),
      ProperState s → ProperPath t →
      Remove env fuel t s = Outcome.ok s' tr →
      ∀ q, ¬ t <+: q → (q ∈ s' ↔ q ∈ s)) := by
  constructor
  · intro env fuel d s _ hd0
    have hne : ¬ d.properties.directory = true := by
      rw [hd0]
      simp
    have hcl : cleanEntry env fuel d s = cleanLeaf env d.path s := by
      unfold cleanEntry
      rw [if_neg hne]
    constructor
    · intro q hq
      rw [hcl] at hq
      have := cleanLeaf_trace_sub env d.path s hq
      simp at this
    · intro q hq
      rw [hcl]
      exact cleanLeaf_frame hq
  · intro env fuel t s s' tr hps hpt h q hq
    rcases Remove_ok_inv h with ⟨_, rfl, _⟩ |
      ⟨_, ds, s₁, tr₀, hdesc, hcs, _, rfl, _⟩
    · exact Iff.rfl
    · rw [mem_purgeTree]
      have hdpaths : ∀ x ∈ ds, ProperPath x.path := fun x hx =>
        (descriptors_ok_path hps hpt hdesc hx).2.1
      have hpref : ∀ x ∈ ds, ¬ x.path <+: q := by
        intro x hx hpre
        obtain ⟨hpath, _, _⟩ := descriptors_ok_path hps hpt hdesc hx
        refine hq (List.IsPrefix.trans ?_ hpre)
        rw [hpath]
        exact List.prefix_append t [x.name]
      have hframe := cleanSeq_frame env fuel ds s hps hdpaths q hpref
      rw [hcs] at hframe
      constructor
      · intro hmem
        exact hframe.mp hmem.1
      · intro hmem
        exact ⟨hframe.mpr hmem, hq⟩

theorem clean_symbolic_leaf_no_follow_witness :
    (["elsewhere"] ∈ (cleanEntry envNoErr 0 descSym stateSym).state ↔
        ["elsewhere"] ∈ stateSym) ∧
      Event.list ["root", "d"] ∉
        (cleanEntry envNoErr 0 descSym stateSym).trace ∧
      (["elsewhere", "x"] ∈ stateMixedFinal ↔
        ["elsewhere", "x"] ∈ stateMixed) := by
  obtain ⟨h1, h2⟩ := clean_symbolic_leaf_no_follow
  exact ⟨(h1 envNoErr 0 descSym stateSym (by decide) (by decide)).2
      ["elsewhere"] (by decide),
    (h1 envNoErr 0 descSym stateSym (by decide) (by decide)).1 ["root", "d"],
    h2 envMixed 5 ["root"] stateMixed stateMixedFinal traceMixed
      (by decide) (by decide) (by decide) ["elsewhere", "x"] (by decide)⟩

/-- C10.  Every descriptor produced by one successful listing has `path`
equal to the join of the resolved listing directory with its base name —
hence all descriptors of one listing share the listing directory as their
common resolved base, every listed path lies inside the directory being
listed, and therefore inside any enclosing walk target. -/
theorem descriptors_paths_in_listing_dir :
    ∀ (env : Env) (s : FSState) (location : NodePath)
      (ds : List Descriptor),
      ProperState s → ProperPath location →
      descriptors env s location = Except.ok ds →
      ∀ d ∈ ds,
        d.path = joinResolve location d.name ∧
        d.path = location ++ [d.name] ∧
        location <+: d.path ∧
        ∀ t, t <+: location → t <+: d.path := by
  intro env s location ds hps hpl hdesc d hd
  have h1 : d.path = joinResolve location d.name := by
    obtain ⟨n, hn, rfl⟩ := descriptors_ok_mem hdesc hd
    rfl
  obtain ⟨h2, _, _⟩ := descriptors_ok_path hps hpl hdesc hd
  refine ⟨h1, h2, ?_, ?_⟩
  · rw [h2]
    exact List.prefix_append location [d.name]
  · intro t ht
    refine ht.trans ?_
    rw [h2]
    exact List.prefix_append location [d.name]

theorem descriptors_paths_in_listing_dir_witness :
    descListing.path = joinResolve ["root"] "a" ∧
      descListing.path = ["root"] ++ ["a"] ∧
      ["root"] <+: descListing.path ∧
      [] <+: descListing.path := by
  obtain ⟨h1, h2, h3, h4⟩ :=
    descriptors_paths_in_listing_dir envNoErr stateListing ["root"]
      [descListing] (by decide) (by decide) (by rfl) descListing (by simp)
  exact ⟨h1, h2, h3, h4 [] (by simp)⟩

end FsRemove
